import Mathlib

/-!
# Verification of the arb-scanner pipeline

A shallow embedding of the arbitrage-scanner core (adapters, matcher,
calculator, queue/cache orchestration, alert dispatcher, retry driver)
together with theorems settling the frozen claims about it.

Modelling conventions:
* `decimal.js` values (`Decimal`) are modelled as exact rationals `ℚ`;
  the operations used by the code (`plus`, `minus`, `times`, `dividedBy`,
  comparisons) are exact at the magnitudes involved.
* JavaScript `Date` instants are modelled as their `getTime()` value in
  milliseconds (`Int`).
* Effectful functions (cache reads/writes, HTTP, webhooks) are modelled by
  passing the environment explicitly and returning the performed effects.
-/

set_option maxRecDepth 40000

namespace ArbScanner

/-- Platform tag, from the TypeScript union `'POLYMARKET' | 'KALSHI' | 'MANIFOLD'`
used by `StandardMarket.platform`. -/
inductive Platform where
  | POLYMARKET
  | KALSHI
  | MANIFOLD
deriving DecidableEq

/-- One `{name, price}` outcome entry of a `StandardMarket`. -/
structure Outcome where
  name : String
  price : ℚ
deriving DecidableEq

/-- Normalized market representation (`StandardMarket` in `types.ts`).
`endDate` is the `Date.getTime()` instant in milliseconds. -/
structure StandardMarket where
  id : String
  platform : Platform
  title : String
  outcomes : List Outcome
  url : String
  category : Option String
  endDate : Option Int
  liquidity : Option ℚ
deriving DecidableEq

/-- The `matchedBy` tag of a `MarketMatch`. -/
inductive MatchedBy where
  | exact
  | fuzzy
  | manual
deriving DecidableEq

/-- A candidate cross-platform pair produced by the matcher. -/
structure MarketMatch where
  marketA : StandardMarket
  marketB : StandardMarket
  score : Int
  matchedBy : MatchedBy
deriving DecidableEq

/-- One realised buy-direction (`ArbitrageOpportunity` in `types.ts`).
The wall-clock `timestamp` field is omitted from the embedding. -/
structure ArbitrageOpportunity where
  marketA : StandardMarket
  marketB : StandardMarket
  outcomeA : String
  outcomeB : String
  priceA : ℚ
  priceB : ℚ
  totalCost : ℚ
  feesA : ℚ
  feesB : ℚ
  totalFees : ℚ
  netCost : ℚ
  profitMargin : ℚ
  roi : ℚ
  isProfitable : Bool
deriving DecidableEq

/-! ## Calculator (`src/calculator/index.ts`) -/

/-- The `platformFees` table of `ArbitrageCalculator` (platform, tradingFee). -/
def platformFees : List (Platform × ℚ) :=
  [(.POLYMARKET, 2/100), (.KALSHI, 7/100), (.MANIFOLD, 0)]

/-- `ArbitrageCalculator.getFeeRate`: look the platform up in `platformFees`,
falling back to `0` when absent (the `?.tradingFee || new Decimal(0)` fallback;
a found `Decimal` object is always truthy, so the fallback fires only on a
missed lookup). -/
def getFeeRate (platform : Platform) : ℚ :=
  ((platformFees.find? (fun f => f.1 = platform)).map (fun f => f.2)).getD 0

/-- Default used to model the unchecked JavaScript index
`marketA.outcomes[outcomeIndexA]`; the callers only pass indices 0 and 1 on
two-outcome markets, where the default is never used. -/
def defaultOutcome : Outcome := ⟨"", 0⟩

/-- `marketA.outcomes[outcomeIndexA]` as used by `calculateArbitrage`. -/
def outcomeAt (m : StandardMarket) (i : Nat) : Outcome :=
  m.outcomes.getD i defaultOutcome

/-- `ArbitrageCalculator.calculateArbitrage`: evaluate one buy-direction
strategy; short-circuits with `null` when the base cost is at least 1. -/
def calculateArbitrage (marketA marketB : StandardMarket)
    (outcomeIndexA outcomeIndexB : Nat) : Option ArbitrageOpportunity :=
  let outcomeA := outcomeAt marketA outcomeIndexA
  let outcomeB := outcomeAt marketB outcomeIndexB
  let priceA := outcomeA.price
  let priceB := outcomeB.price
  let totalCost := priceA + priceB
  if 1 ≤ totalCost then
    none
  else
    let feeRateA := getFeeRate marketA.platform
    let feeRateB := getFeeRate marketB.platform
    let feesA := priceA * feeRateA
    let feesB := priceB * feeRateB
    let totalFees := feesA + feesB
    let netCost := totalCost + totalFees
    let profitMargin := 1 - netCost
    some
      { marketA := marketA
        marketB := marketB
        outcomeA := outcomeA.name
        outcomeB := outcomeB.name
        priceA := priceA
        priceB := priceB
        totalCost := totalCost
        feesA := feesA
        feesB := feesB
        totalFees := totalFees
        netCost := netCost
        profitMargin := profitMargin
        roi := if 0 < profitMargin then profitMargin / netCost * 100 else 0
        isProfitable := decide (0 < profitMargin) }

/-- `ArbitrageCalculator.analyzeMarketPair`: binary markets only, both
buy-direction strategies `(0,1)` and `(1,0)`. -/
def analyzeMarketPair (m : MarketMatch) : List ArbitrageOpportunity :=
  if m.marketA.outcomes.length ≠ 2 ∨ m.marketB.outcomes.length ≠ 2 then
    []
  else
    (calculateArbitrage m.marketA m.marketB 0 1).toList ++
      (calculateArbitrage m.marketA m.marketB 1 0).toList

/-- `ArbitrageCalculator.findArbitrageOpportunities`: analyze every matched
pair and keep only the profitable strategy results. -/
def findArbitrageOpportunities (ms : List MarketMatch) :
    List ArbitrageOpportunity :=
  (ms.flatMap analyzeMarketPair).filter (fun opp => opp.isProfitable)

theorem calculateArbitrage_some_fields (marketA marketB : StandardMarket)
    (iA iB : Nat) (opp : ArbitrageOpportunity)
    (h : calculateArbitrage marketA marketB iA iB = some opp) :
    opp.priceA = (outcomeAt marketA iA).price ∧
    opp.priceB = (outcomeAt marketB iB).price ∧
    opp.totalCost = opp.priceA + opp.priceB ∧
    opp.feesA = opp.priceA * getFeeRate marketA.platform ∧
    opp.feesB = opp.priceB * getFeeRate marketB.platform ∧
    opp.totalFees = opp.feesA + opp.feesB ∧
    opp.netCost = opp.totalCost + opp.totalFees ∧
    opp.profitMargin = 1 - opp.netCost ∧
    (opp.isProfitable = true ↔ 0 < opp.profitMargin) ∧
    (opp.isProfitable = true → opp.roi = opp.profitMargin / opp.netCost * 100) ∧
    (opp.isProfitable = false → opp.roi = 0) := by
  unfold calculateArbitrage at h
  simp only [] at h
  split at h
  · exact absurd h (by simp)
  · cases h
    refine ⟨rfl, rfl, rfl, rfl, rfl, rfl, rfl, rfl, by simp, ?_, ?_⟩
    · intro hp
      simp only [decide_eq_true_eq] at hp
      simp only [if_pos hp]
    · intro hp
      simp only [decide_eq_false_iff_not] at hp
      simp only [if_neg hp]

theorem calculateArbitrage_none_iff (marketA marketB : StandardMarket)
    (iA iB : Nat) :
    calculateArbitrage marketA marketB iA iB = none ↔
      1 ≤ (outcomeAt marketA iA).price + (outcomeAt marketB iB).price := by
  unfold calculateArbitrage
  simp only []
  split
  next hc => simpa using hc
  next hc => simpa using hc

/-- C1: for binary markets and either buy-direction strategy,
`calculateArbitrage` emits nothing exactly when `priceA + priceB ≥ 1`
(equality included), and an emitted opportunity satisfies
`totalCost = priceA + priceB`, `feesA = priceA·rateA`, `feesB = priceB·rateB`
with rates PM = 0.02, KAL = 0.07, MAN = 0, `totalFees = feesA + feesB`,
`netCost = totalCost + totalFees` and `profitMargin = 1 − netCost`, all in
exact arithmetic. -/
theorem calculateArbitrage_spec (marketA marketB : StandardMarket)
    (hA : marketA.outcomes.length = 2) (hB : marketB.outcomes.length = 2)
    (iA iB : Nat) (hstrat : (iA, iB) = (0, 1) ∨ (iA, iB) = (1, 0)) :
    (calculateArbitrage marketA marketB iA iB = none ↔
      1 ≤ (outcomeAt marketA iA).price + (outcomeAt marketB iB).price) ∧
    (∀ opp, calculateArbitrage marketA marketB iA iB = some opp →
      opp.priceA = (outcomeAt marketA iA).price ∧
      opp.priceB = (outcomeAt marketB iB).price ∧
      opp.totalCost = opp.priceA + opp.priceB ∧
      opp.feesA = opp.priceA * getFeeRate marketA.platform ∧
      opp.feesB = opp.priceB * getFeeRate marketB.platform ∧
      opp.totalFees = opp.feesA + opp.feesB ∧
      opp.netCost = opp.totalCost + opp.totalFees ∧
      opp.profitMargin = 1 - opp.netCost) ∧
    getFeeRate .POLYMARKET = 2/100 ∧
    getFeeRate .KALSHI = 7/100 ∧
    getFeeRate .MANIFOLD = 0 := by
  refine ⟨calculateArbitrage_none_iff marketA marketB iA iB, ?_,
    by with_unfolding_all decide, by with_unfolding_all decide,
    by with_unfolding_all decide⟩
  intro opp h
  have hf := calculateArbitrage_some_fields marketA marketB iA iB opp h
  exact ⟨hf.1, hf.2.1, hf.2.2.1, hf.2.2.2.1, hf.2.2.2.2.1, hf.2.2.2.2.2.1,
    hf.2.2.2.2.2.2.1, hf.2.2.2.2.2.2.2.1⟩

/-- Demo market: PolyMarket with Yes = 0.45, No = 0.55 (spec scenario 1). -/
def mDemoPM : StandardMarket :=
  { id := "pm1", platform := .POLYMARKET, title := "Will it rain tomorrow?"
    outcomes := [⟨"Yes", 45/100⟩, ⟨"No", 55/100⟩]
    url := "https://polymarket.com/event/pm1"
    category := none, endDate := none, liquidity := none }

/-- Demo market: Manifold with Yes = 0.60, No = 0.38 (spec scenario 1). -/
def mDemoMAN : StandardMarket :=
  { id := "man1", platform := .MANIFOLD, title := "Will it rain tomorrow?"
    outcomes := [⟨"Yes", 60/100⟩, ⟨"No", 38/100⟩]
    url := "https://manifold.markets/man1"
    category := none, endDate := none, liquidity := none }

/-- Witness for `calculateArbitrage_spec` at spec scenario 1
(PM Yes 0.45 + MAN No 0.38): the strategy is emitted, with
`totalCost = 0.83`. -/
theorem calculateArbitrage_spec_witness :
    calculateArbitrage mDemoPM mDemoMAN 0 1 ≠ none ∧
    (calculateArbitrage mDemoPM mDemoMAN 0 1).map
      (fun opp => opp.totalCost) = some (83/100) := by
  have h := calculateArbitrage_spec mDemoPM mDemoMAN
    (by with_unfolding_all decide) (by with_unfolding_all decide)
    0 1 (Or.inl rfl)
  constructor
  · intro hn
    have hle := (h.1).mp hn
    revert hle
    with_unfolding_all decide
  · match hm : calculateArbitrage mDemoPM mDemoMAN 0 1 with
    | none =>
      exact absurd ((h.1).mp hm) (by with_unfolding_all decide)
    | some opp =>
      have hf := h.2.1 opp hm
      have hval : opp.totalCost = 83/100 := by
        rw [hf.2.2.1, hf.1, hf.2.1]
        with_unfolding_all decide
      simp [hval]

theorem mem_analyzeMarketPair (m : MarketMatch) (opp : ArbitrageOpportunity)
    (h : opp ∈ analyzeMarketPair m) :
    calculateArbitrage m.marketA m.marketB 0 1 = some opp ∨
    calculateArbitrage m.marketA m.marketB 1 0 = some opp := by
  unfold analyzeMarketPair at h
  by_cases hb : m.marketA.outcomes.length ≠ 2 ∨ m.marketB.outcomes.length ≠ 2
  · simp [hb] at h
  · simp only [hb, if_false, List.mem_append, Option.mem_toList,
      Option.mem_def] at h
    exact h

/-- C2: `findArbitrageOpportunities` returns exactly the evaluated strategy
results whose `isProfitable` flag is set; every constructed opportunity has
`isProfitable` iff `profitMargin > 0`; hence every returned opportunity has
`profitMargin > 0` and `roi = profitMargin / netCost × 100`, and every
non-profitable evaluation carries `roi = 0` and is excluded. -/
theorem findArbitrage_profitable_spec (ms : List MarketMatch)
    (opp : ArbitrageOpportunity) :
    (opp ∈ findArbitrageOpportunities ms ↔
      (∃ m ∈ ms, opp ∈ analyzeMarketPair m) ∧ opp.isProfitable = true) ∧
    (∀ m ∈ ms, opp ∈ analyzeMarketPair m →
      (opp.isProfitable = true ↔ 0 < opp.profitMargin) ∧
      (opp.isProfitable = true → opp.roi = opp.profitMargin / opp.netCost * 100) ∧
      (opp.isProfitable = false → opp.roi = 0) ∧
      (opp.isProfitable = false → opp ∉ findArbitrageOpportunities ms)) := by
  have hmem : opp ∈ findArbitrageOpportunities ms ↔
      (∃ m ∈ ms, opp ∈ analyzeMarketPair m) ∧ opp.isProfitable = true := by
    unfold findArbitrageOpportunities
    rw [List.mem_filter, List.mem_flatMap]
  refine ⟨hmem, ?_⟩
  intro m _ hopp
  have hcases := mem_analyzeMarketPair m opp hopp
  have hfields :
      (opp.isProfitable = true ↔ 0 < opp.profitMargin) ∧
      (opp.isProfitable = true → opp.roi = opp.profitMargin / opp.netCost * 100) ∧
      (opp.isProfitable = false → opp.roi = 0) := by
    rcases hcases with h | h
    · have hf := calculateArbitrage_some_fields m.marketA m.marketB 0 1 opp h
      exact ⟨hf.2.2.2.2.2.2.2.2.1, hf.2.2.2.2.2.2.2.2.2.1,
        hf.2.2.2.2.2.2.2.2.2.2⟩
    · have hf := calculateArbitrage_some_fields m.marketA m.marketB 1 0 opp h
      exact ⟨hf.2.2.2.2.2.2.2.2.1, hf.2.2.2.2.2.2.2.2.2.1,
        hf.2.2.2.2.2.2.2.2.2.2⟩
  refine ⟨hfields.1, hfields.2.1, hfields.2.2, ?_⟩
  intro hnp hin
  have := (hmem.mp hin).2
  rw [hnp] at this
  exact Bool.false_ne_true this

/-- A `MarketMatch` over the demo markets, used to instantiate C2. -/
def demoMatch : MarketMatch :=
  { marketA := mDemoPM, marketB := mDemoMAN, score := 100, matchedBy := .fuzzy }

/-- Witness for `findArbitrage_profitable_spec`: on the demo match, every
returned opportunity is profitable with positive margin. -/
theorem findArbitrage_profitable_spec_witness :
    ∀ opp ∈ findArbitrageOpportunities [demoMatch],
      0 < opp.profitMargin ∧ opp.isProfitable = true := by
  intro opp hin
  have h := findArbitrage_profitable_spec [demoMatch] opp
  have hm := h.1.mp hin
  obtain ⟨⟨m, hmmem, hopp⟩, hprof⟩ := hm
  have hfacts := h.2 m hmmem hopp
  exact ⟨hfacts.1.mp hprof, hprof⟩

/-! ## Matcher (`src/matcher/index.ts`) -/

/-- The stop-word set of `MarketMatcher.extractKeywords`. -/
def stopWords : List String :=
  ["will", "the", "be", "in", "on", "at", "to", "a", "an",
   "is", "are", "was", "were", "for", "of", "by", "or"]

/-- A character matched by the JavaScript regex class `\w`
(ASCII letters, digits, underscore). -/
def isWordChar (c : Char) : Bool :=
  c.isAlphanum || c = '_'

/-- One step of the `replace(/[^\w\s]/g, ' ')` normalization: punctuation
becomes a space, word characters and whitespace are kept. -/
def normalizeChar (c : Char) : Char :=
  if isWordChar c || c.isWhitespace then c else ' '

/-- Splitting on whitespace runs, as `split(/\s+/)` does. Empty tokens are
dropped here; the source can produce one leading empty token, which the
subsequent `length > 2` filter removes either way. -/
def splitWhitespaceAux : List Char → List Char → List String
  | [], [] => []
  | [], acc => [String.mk acc.reverse]
  | c :: rest, acc =>
    if c.isWhitespace then
      match acc with
      | [] => splitWhitespaceAux rest []
      | _ => String.mk acc.reverse :: splitWhitespaceAux rest []
    else
      splitWhitespaceAux rest (c :: acc)

/-- `MarketMatcher.extractKeywords`: lowercase, punctuation→whitespace,
split on whitespace, keep tokens of length > 2 that are not stop words. -/
def extractKeywords (title : String) : List String :=
  let normalized := title.data.map (fun c => normalizeChar c.toLower)
  (splitWhitespaceAux normalized []).filter
    (fun word => 2 < word.length && !(stopWords.contains word))

/-- Milliseconds per day, the `(1000 * 60 * 60 * 24)` divisor of the
date-proximity filter. -/
def msPerDay : ℚ := 1000 * 60 * 60 * 24

/-- Filter 1 of `preFilterCandidates`: when both markets carry an `endDate`,
reject candidates whose close instants differ by more than 30 days
(`daysDiff > 30` after dividing the millisecond gap by `msPerDay`). -/
def dateRejects (targetMarket candidate : StandardMarket) : Bool :=
  match targetMarket.endDate, candidate.endDate with
  | some tA, some tB =>
    decide ((30 : ℚ) < |(tA : ℚ) - (tB : ℚ)| / msPerDay)
  | _, _ => false

/-- Filter 2 of `preFilterCandidates`: the two titles share at least one
keyword (`wordsA.some(word => wordsB.includes(word))`). -/
def hasKeywordOverlap (targetMarket candidate : StandardMarket) : Bool :=
  (extractKeywords targetMarket.title).any
    (fun word => (extractKeywords candidate.title).contains word)

/-- The predicate applied to each candidate by
`MarketMatcher.preFilterCandidates`: date proximity (only when both end
dates exist), keyword overlap, and equal outcome count, with the same
early-return structure as the source. -/
def passesPreFilter (targetMarket candidate : StandardMarket) : Bool :=
  if dateRejects targetMarket candidate then
    false
  else if !(hasKeywordOverlap targetMarket candidate) then
    false
  else if targetMarket.outcomes.length ≠ candidate.outcomes.length then
    false
  else
    true

/-- `MarketMatcher.preFilterCandidates`. -/
def preFilterCandidates (targetMarket : StandardMarket)
    (candidateMarkets : List StandardMarket) : List StandardMarket :=
  candidateMarkets.filter (passesPreFilter targetMarket)

/-- One result returned by the Fuse.js search: the matched market together
with its normalized distance (`score`, 0 = perfect match). -/
structure RankResult where
  item : StandardMarket
  score : ℚ
deriving DecidableEq

/-- The fuzzy ranker (Fuse.js keyed on `title`), abstracted as a function
from the query title and candidate list to the ranked results. Fuse's
configured contract — only results with distance at most the 0.40 threshold,
drawn from the candidate list, ascending by distance — enters the theorems
as an explicit hypothesis. -/
def Ranker : Type :=
  String → List StandardMarket → List RankResult

/-- JavaScript `Math.round`: round half away from zero for positive inputs
(half towards `+∞` in general). -/
def jsRound (q : ℚ) : Int :=
  ⌊q + 1/2⌋

/-- `MarketMatcher.findBestMatch`: run the ranker over the candidates, take
the first (best) result, convert distance to an integer confidence score. -/
def findBestMatch (ranker : Ranker) (targetMarket : StandardMarket)
    (candidates : List StandardMarket) : Option MarketMatch :=
  match ranker targetMarket.title candidates with
  | [] => none
  | bestResult :: _ =>
    some
      { marketA := targetMarket
        marketB := bestResult.item
        score := jsRound ((1 - bestResult.score) * 100)
        matchedBy := .fuzzy }

/-- `MarketMatcher.findMatches`: for each market of A, pre-filter the
candidates from B and emit the best fuzzy match, if any. -/
def findMatches (ranker : Ranker) (marketsA marketsB : List StandardMarket) :
    List MarketMatch :=
  marketsA.filterMap (fun marketA =>
    let candidates := preFilterCandidates marketA marketsB
    if candidates.isEmpty then
      none
    else
      findBestMatch ranker marketA candidates)

theorem dateRejects_iff (a b : StandardMarket) :
    dateRejects a b = true ↔
      ∃ dA, a.endDate = some dA ∧ ∃ dB, b.endDate = some dB ∧
        30 * msPerDay < |(dA : ℚ) - (dB : ℚ)| := by
  have hms : (0 : ℚ) < msPerDay := by norm_num [msPerDay]
  unfold dateRejects
  cases hA : a.endDate with
  | none => simp [hA]
  | some dA =>
    cases hB : b.endDate with
    | none => simp [hA, hB]
    | some dB =>
      simp only [hA, hB, decide_eq_true_eq, Option.some.injEq]
      rw [lt_div_iff₀ hms]
      constructor
      · intro h
        exact ⟨dA, rfl, dB, rfl, by linarith⟩
      · rintro ⟨dA2, h1, dB2, h2, h3⟩
        cases h1
        cases h2
        linarith

theorem hasKeywordOverlap_iff (a b : StandardMarket) :
    hasKeywordOverlap a b = true ↔
      ∃ w ∈ extractKeywords a.title, w ∈ extractKeywords b.title := by
  unfold hasKeywordOverlap
  simp [List.any_eq_true]

theorem passesPreFilter_iff (a b : StandardMarket) :
    passesPreFilter a b = true ↔
      ((¬ ∃ dA, a.endDate = some dA ∧ ∃ dB, b.endDate = some dB ∧
          30 * msPerDay < |(dA : ℚ) - (dB : ℚ)|) ∧
        (∃ w ∈ extractKeywords a.title, w ∈ extractKeywords b.title) ∧
        a.outcomes.length = b.outcomes.length) := by
  unfold passesPreFilter
  cases hd : dateRejects a b with
  | true =>
    have hDate := (dateRejects_iff a b).mp hd
    simp [hDate]
  | false =>
    cases ho : hasKeywordOverlap a b with
    | false =>
      have hno : ¬ ∃ w ∈ extractKeywords a.title,
          w ∈ extractKeywords b.title := by
        rw [← hasKeywordOverlap_iff]
        simp [ho]
      simp [hno]
    | true =>
      have hyes : ∃ w ∈ extractKeywords a.title,
          w ∈ extractKeywords b.title := hasKeywordOverlap_iff a b |>.mp ho
      have hnd : ¬ ∃ dA, a.endDate = some dA ∧ ∃ dB, b.endDate = some dB ∧
          30 * msPerDay < |(dA : ℚ) - (dB : ℚ)| := by
        rw [← dateRejects_iff]
        simp [hd]
      by_cases hl : a.outcomes.length = b.outcomes.length
      · simp [ho, hl, hnd, hyes]
      · simp [ho, hl, hnd]

/-- C6: a candidate `b` from list B is presented to the fuzzy ranker for a
market `a` iff all three hold: (1) it is not the case that both markets have
an `endDate` with absolute difference greater than 30 days (a missing
`endDate` on either side never rejects); (2) the keyword sets of the two
titles (per `extractKeywords`: lowercased tokens of length > 2 after
punctuation-to-whitespace normalization, minus the stop-word set) share at
least one element; (3) the two markets have the same number of outcomes. -/
theorem preFilter_presented_iff (a b : StandardMarket)
    (B : List StandardMarket) :
    b ∈ preFilterCandidates a B ↔
      (b ∈ B ∧
        (¬ ∃ dA, a.endDate = some dA ∧ ∃ dB, b.endDate = some dB ∧
          30 * msPerDay < |(dA : ℚ) - (dB : ℚ)|) ∧
        (∃ w ∈ extractKeywords a.title, w ∈ extractKeywords b.title) ∧
        a.outcomes.length = b.outcomes.length) := by
  unfold preFilterCandidates
  rw [List.mem_filter, passesPreFilter_iff]

/-- Market used to instantiate the matcher theorems: PolyMarket phrasing of
spec scenario 4. -/
def mCrossA : StandardMarket :=
  { id := "pmx", platform := .POLYMARKET, title := "US recession in 2025?"
    outcomes := [⟨"Yes", 45/100⟩, ⟨"No", 55/100⟩]
    url := "https://polymarket.com/event/pmx"
    category := none, endDate := none, liquidity := none }

/-- Market used to instantiate the matcher theorems: Manifold counterpart
with the same title, distinct platform. -/
def mCrossB : StandardMarket :=
  { id := "manx", platform := .MANIFOLD, title := "US recession in 2025?"
    outcomes := [⟨"Yes", 60/100⟩, ⟨"No", 40/100⟩]
    url := "https://manifold.markets/manx"
    category := none, endDate := none, liquidity := none }

/-- Witness for `preFilter_presented_iff`: the Manifold counterpart is
presented to the ranker for the PolyMarket market. -/
theorem preFilter_presented_iff_witness :
    mCrossB ∈ preFilterCandidates mCrossA [mCrossB] := by
  refine (preFilter_presented_iff mCrossA mCrossB [mCrossB]).mpr
    ⟨List.mem_singleton.mpr rfl, ?_, ?_, by with_unfolding_all decide⟩
  · rintro ⟨dA, hdA, _⟩
    simp [mCrossA] at hdA
  · exact ⟨"recession", by with_unfolding_all decide, by with_unfolding_all decide⟩

theorem findBestMatch_some (ranker : Ranker) (a : StandardMarket)
    (candidates : List StandardMarket) (m : MarketMatch)
    (h : findBestMatch ranker a candidates = some m) :
    ∃ r rest, ranker a.title candidates = r :: rest ∧
      m = { marketA := a, marketB := r.item,
            score := jsRound ((1 - r.score) * 100), matchedBy := .fuzzy } := by
  unfold findBestMatch at h
  cases hr : ranker a.title candidates with
  | nil => rw [hr] at h; exact absurd h (by simp)
  | cons r rest =>
    rw [hr] at h
    cases h
    exact ⟨r, rest, rfl, rfl⟩

theorem jsRound_ge_60 (s : ℚ) (hs : s ≤ 2/5) : 60 ≤ jsRound ((1 - s) * 100) := by
  unfold jsRound
  rw [Int.le_floor]
  push_cast
  linarith

/-- C5 (amended): for any two input lists, `findMatches` emits at most one
match per element of the first list; under the Fuse contract (every ranker
result has normalized distance at most the 0.40 threshold and is drawn from
the candidate list) every emitted match has integer score ≥ 60, `marketA`
from the first list and `marketB` from the second; and the two platforms
differ whenever the two input lists have disjoint platforms — the code
itself performs no platform check. -/
theorem findMatches_spec (ranker : Ranker) (A B : List StandardMarket)
    (hrank : ∀ a ∈ A, ∀ r ∈ ranker a.title (preFilterCandidates a B),
      r.score ≤ 2/5 ∧ r.item ∈ preFilterCandidates a B) :
    (findMatches ranker A B).length ≤ A.length ∧
    ∀ m ∈ findMatches ranker A B,
      60 ≤ m.score ∧ m.marketA ∈ A ∧ m.marketB ∈ B ∧
      ((∀ a ∈ A, ∀ b ∈ B, a.platform ≠ b.platform) →
        m.marketA.platform ≠ m.marketB.platform) := by
  constructor
  · exact List.length_filterMap_le _ _
  · intro m hm
    unfold findMatches at hm
    rw [List.mem_filterMap] at hm
    obtain ⟨a, ha, hfa⟩ := hm
    by_cases hempty : (preFilterCandidates a B).isEmpty = true
    · rw [if_pos hempty] at hfa
      exact absurd hfa (by simp)
    · rw [if_neg hempty] at hfa
      obtain ⟨r, rest, hr, hmeq⟩ := findBestMatch_some ranker a _ _ hfa
      have hri : r ∈ ranker a.title (preFilterCandidates a B) := by
        rw [hr]; exact List.mem_cons_self r rest
      obtain ⟨hscore, hitem⟩ := hrank a ha r hri
      have hitemB : r.item ∈ B := by
        unfold preFilterCandidates at hitem
        exact (List.mem_filter.mp hitem).1
      subst hmeq
      refine ⟨jsRound_ge_60 r.score hscore, ha, hitemB, ?_⟩
      intro hdisj
      exact hdisj a ha r.item hitemB

/-- A ranker standing in for Fuse.js on exact-title queries: it returns the
candidates whose title equals the query, each with distance 0 (Fuse scores
an exact match as 0, well inside the 0.40 threshold). -/
def exactRanker : Ranker := fun query candidates =>
  (candidates.filter (fun m => m.title == query)).map (fun m => ⟨m, 0⟩)

/-- Two markets on the same platform with identical titles, used to show
that `findMatches` never compares platforms. -/
def mSameA : StandardMarket :=
  { id := "man-a", platform := .MANIFOLD, title := "alpha beta gamma"
    outcomes := [⟨"Yes", 45/100⟩, ⟨"No", 55/100⟩]
    url := "https://manifold.markets/man-a"
    category := none, endDate := none, liquidity := none }

/-- Same-platform counterpart of `mSameA` with a distinct id. -/
def mSameB : StandardMarket :=
  { id := "man-b", platform := .MANIFOLD, title := "alpha beta gamma"
    outcomes := [⟨"Yes", 60/100⟩, ⟨"No", 40/100⟩]
    url := "https://manifold.markets/man-b"
    category := none, endDate := none, liquidity := none }

/-- Counterexample to C5 as stated: on two input lists drawn from the same
platform, `findMatches` emits a match whose two markets share a platform,
because the code never compares `marketA.platform` with `marketB.platform`. -/
theorem findMatches_same_platform_counterexample :
    ¬ (∀ m ∈ findMatches exactRanker [mSameA] [mSameB],
        m.marketA.platform ≠ m.marketB.platform) := by
  intro h
  have hmem : MarketMatch.mk mSameA mSameB 100 .fuzzy ∈
      findMatches exactRanker [mSameA] [mSameB] := by
    with_unfolding_all decide
  exact h _ hmem rfl

/-- Witness for `findMatches_spec`: on a cross-platform singleton pair the
hypotheses hold and the theorem bounds the output. -/
theorem findMatches_spec_witness :
    (findMatches exactRanker [mCrossA] [mCrossB]).length ≤ 1 ∧
    ∀ m ∈ findMatches exactRanker [mCrossA] [mCrossB], 60 ≤ m.score := by
  have h := findMatches_spec exactRanker [mCrossA] [mCrossB]
    (by with_unfolding_all decide)
  exact ⟨h.1, fun m hm => (h.2 m hm).1⟩

/-! ## Cache keys (`src/services/redis.ts`) and scan orchestration
(`src/services/queue.ts`) -/

/-- `CacheKeys.markets`. -/
def marketsKey (platform : String) : String :=
  "markets:" ++ platform

/-- `CacheKeys.alertSent`. -/
def alertSentKey (marketAId marketBId : String) : String :=
  "alert:sent:" ++ marketAId ++ ":" ++ marketBId

/-- `ScanJobData` from `queue.ts`: platforms are free-form strings here. -/
structure ScanJobData where
  platformA : String
  platformB : String
  limit : Nat
deriving DecidableEq

/-- `deserializeMarkets` from `queue.ts`: rehydrate cached date strings into
`Date`s and price strings into `Decimal`s. In this embedding (exact `ℚ`
prices, instants as `Int`) rehydration rebuilds each record unchanged. -/
def deserializeMarkets (markets : List StandardMarket) : List StandardMarket :=
  markets.map (fun market =>
    { market with
      endDate := market.endDate
      liquidity := market.liquidity
      outcomes := market.outcomes.map (fun o => { o with price := o.price }) })

/-- The effects of one `fetchMarketsWithCache` call: the returned list, the
cache writes `(key, value, ttlSeconds)` it performed, and the platform
adapters it invoked. -/
structure FetchEffects where
  result : List StandardMarket
  cacheWrites : List (String × List StandardMarket × Nat)
  adaptersInvoked : List String
deriving DecidableEq

/-- `fetchMarketsWithCache` from `queue.ts`. The cache is passed as the map
from key to stored value; a JavaScript array (even an empty one) is truthy,
so any stored value is a cache hit. Only the `'POLYMARKET'` and `'MANIFOLD'`
platform strings dispatch to an adapter; anything else leaves `markets`
as the initial empty array, which is then cached for 120 s and returned. -/
def fetchMarketsWithCache (cache : String → Option (List StandardMarket))
    (polymarketFetch manifoldFetch : Nat → List StandardMarket)
    (platform : String) (limit : Nat) : FetchEffects :=
  let cacheKey := marketsKey platform
  match cache cacheKey with
  | some cached =>
    { result := deserializeMarkets cached, cacheWrites := [],
      adaptersInvoked := [] }
  | none =>
    let fetched : List StandardMarket × List String :=
      if platform = "POLYMARKET" then
        (polymarketFetch limit, ["POLYMARKET"])
      else if platform = "MANIFOLD" then
        (manifoldFetch limit, ["MANIFOLD"])
      else
        ([], [])
    { result := fetched.1, cacheWrites := [(cacheKey, fetched.1, 120)],
      adaptersInvoked := fetched.2 }

/-- The recurring jobs enrolled by `startScheduler` in the scheduler entry
point, paired with their cadence in seconds. -/
def schedulerRecurringJobs : List (ScanJobData × Nat) :=
  [(⟨"POLYMARKET", "MANIFOLD", 200⟩, 60),
   (⟨"KALSHI", "POLYMARKET", 100⟩, 60),
   (⟨"KALSHI", "MANIFOLD", 100⟩, 60)]

theorem deserializeMarkets_id (markets : List StandardMarket) :
    deserializeMarkets markets = markets := by
  have houtcomes : ∀ os : List Outcome,
      os.map (fun o => { o with price := o.price }) = os := by
    intro os
    induction os with
    | nil => rfl
    | cons o rest ih =>
      rw [List.map_cons, ih]
  unfold deserializeMarkets
  induction markets with
  | nil => rfl
  | cons m rest ih =>
    rw [List.map_cons, ih]
    congr 1
    rw [houtcomes]

theorem findMatches_nil_left (ranker : Ranker) (B : List StandardMarket) :
    findMatches ranker [] B = [] := rfl

theorem findMatches_nil_right (ranker : Ranker) (A : List StandardMarket) :
    findMatches ranker A [] = [] := by
  unfold findMatches
  induction A with
  | nil => rfl
  | cons a rest ih =>
    simp only [List.filterMap_cons]
    have hcand : preFilterCandidates a [] = [] := rfl
    rw [hcand]
    simpa using ih

/-- C4: for a `ScanJob` platform that is neither `'POLYMARKET'` nor
`'MANIFOLD'` — in particular the scheduler's recurring KALSHI jobs —
`fetchMarketsWithCache` invokes no adapter and returns the empty list
(writing it to the `markets:<P>` key with TTL 120 s on a cache miss), so a
scan over such a platform sees zero markets for it and the downstream
matcher and calculator can produce no match and no opportunity. -/
theorem fetchMarketsWithCache_unknown_platform
    (cache : String → Option (List StandardMarket))
    (polymarketFetch manifoldFetch : Nat → List StandardMarket)
    (platform : String) (limit : Nat)
    (hpm : platform ≠ "POLYMARKET") (hman : platform ≠ "MANIFOLD")
    (hc : cache (marketsKey platform) = none ∨
      cache (marketsKey platform) = some []) :
    ((fetchMarketsWithCache cache polymarketFetch manifoldFetch platform
        limit).adaptersInvoked = [] ∧
      (fetchMarketsWithCache cache polymarketFetch manifoldFetch platform
        limit).result = [] ∧
      (cache (marketsKey platform) = none →
        (fetchMarketsWithCache cache polymarketFetch manifoldFetch platform
          limit).cacheWrites = [(marketsKey platform, [], 120)])) ∧
    (∀ ranker B, findMatches ranker [] B = []) ∧
    (∀ ranker A, findMatches ranker A [] = []) ∧
    findArbitrageOpportunities [] = [] ∧
    (∃ j ∈ schedulerRecurringJobs,
      j.1.platformA = "KALSHI" ∧ j.1.platformB = "POLYMARKET") ∧
    (∃ j ∈ schedulerRecurringJobs,
      j.1.platformA = "KALSHI" ∧ j.1.platformB = "MANIFOLD") ∧
    ("KALSHI" : String) ≠ "POLYMARKET" ∧ ("KALSHI" : String) ≠ "MANIFOLD" := by
  refine ⟨?_, fun ranker B => findMatches_nil_left ranker B,
    fun ranker A => findMatches_nil_right ranker A, rfl,
    ⟨⟨⟨"KALSHI", "POLYMARKET", 100⟩, 60⟩, by decide, rfl, rfl⟩,
    ⟨⟨⟨"KALSHI", "MANIFOLD", 100⟩, 60⟩, by decide, rfl, rfl⟩,
    by decide, by decide⟩
  rcases hc with hnone | hempty
  · have heval : fetchMarketsWithCache cache polymarketFetch manifoldFetch
        platform limit =
        ⟨[], [(marketsKey platform, [], 120)], []⟩ := by
      unfold fetchMarketsWithCache
      simp only [hnone, if_neg hpm, if_neg hman]
    rw [heval]
    exact ⟨rfl, rfl, fun _ => rfl⟩
  · have heval : fetchMarketsWithCache cache polymarketFetch manifoldFetch
        platform limit = ⟨deserializeMarkets [], [], []⟩ := by
      unfold fetchMarketsWithCache
      simp only [hempty]
    rw [heval, deserializeMarkets_id]
    refine ⟨rfl, rfl, ?_⟩
    intro hnone
    rw [hnone] at hempty
    exact absurd hempty (by simp)

/-- Witness for `fetchMarketsWithCache_unknown_platform` at the scheduler's
`KALSHI` platform with an empty cache. -/
theorem fetchMarketsWithCache_unknown_platform_witness :
    (fetchMarketsWithCache (fun _ => none) (fun _ => []) (fun _ => [])
      "KALSHI" 100).result = [] ∧
    (fetchMarketsWithCache (fun _ => none) (fun _ => []) (fun _ => [])
      "KALSHI" 100).adaptersInvoked = [] ∧
    (fetchMarketsWithCache (fun _ => none) (fun _ => []) (fun _ => [])
      "KALSHI" 100).cacheWrites = [("markets:KALSHI", [], 120)] := by
  have h := fetchMarketsWithCache_unknown_platform (fun _ => none)
    (fun _ => []) (fun _ => []) "KALSHI" 100 (by decide) (by decide)
    (Or.inl rfl)
  exact ⟨h.1.2.1, h.1.1, h.1.2.2 rfl⟩

/-! ## Alert dispatcher (`src/services/alerts.ts`) -/

/-- `meetsAlertThreshold` from `alerts.ts`, with the two configured
thresholds passed explicitly (`CONFIG.alerts.minProfitPercent`,
`CONFIG.alerts.minProfitAmount`). The source converts both `Decimal`s with
`toNumber()` before comparing; the embedding compares the exact values. -/
def meetsAlertThreshold (minProfitPercent minProfitAmount : ℚ)
    (opportunity : ArbitrageOpportunity) : Bool :=
  decide (minProfitPercent ≤ opportunity.roi * 100) &&
    decide (minProfitAmount ≤ opportunity.profitMargin)

/-- Manifold market with Yes = 0.50, No = 0.50. -/
def mThinA : StandardMarket :=
  { id := "man-t1", platform := .MANIFOLD, title := "thin margin event"
    outcomes := [⟨"Yes", 50/100⟩, ⟨"No", 50/100⟩]
    url := "https://manifold.markets/man-t1"
    category := none, endDate := none, liquidity := none }

/-- Manifold market with Yes = 0.51, No = 0.49. -/
def mThinB : StandardMarket :=
  { id := "man-t2", platform := .MANIFOLD, title := "thin margin event"
    outcomes := [⟨"Yes", 51/100⟩, ⟨"No", 49/100⟩]
    url := "https://manifold.markets/man-t2"
    category := none, endDate := none, liquidity := none }

/-- The calculator's evaluation of the thin-margin pair (buy Yes on A at
0.50 and No on B at 0.49; no Manifold fees): `netCost = 0.99`,
`profitMargin = 0.01`, true ROI ≈ 1.01 %. -/
def oppThin : Option ArbitrageOpportunity :=
  calculateArbitrage mThinA mThinB 0 1

/-- C7, divergence witness: the calculator stores `roi` already as a
percentage (`profitMargin / netCost × 100`), but `meetsAlertThreshold`
multiplies it by 100 again. On the thin-margin opportunity (true ROI
≈ 1.01 %, `roi` field 100/99) the code's test passes the 5 % threshold
(10000/99 ≥ 5) even though the claimed test 100·profitMargin/netCost ≥ 5
fails — the threshold is effectively divided by 100. -/
theorem meetsAlertThreshold_double_scaling :
    oppThin.map (meetsAlertThreshold 5 0) = some true ∧
    oppThin.map
      (fun opp => decide ((5 : ℚ) ≤ 100 * opp.profitMargin / opp.netCost)) =
      some false ∧
    oppThin.map (fun opp => opp.roi) = some (100/99) := by
  refine ⟨?_, ?_, ?_⟩ <;> with_unfolding_all decide

/-- The alert configuration fields consumed by `sendArbitrageAlert`
(`CONFIG.alerts`): `enabled`, whether `discordWebhook` is a non-empty URL,
and `cooldownMinutes`. -/
structure AlertsConfig where
  enabled : Bool
  webhookConfigured : Bool
  cooldownMinutes : Nat
deriving DecidableEq

/-- The observable effects of one `sendArbitrageAlert` call: whether a
webhook POST was issued, the cooldown keys written `(key, ttlSeconds)`, and
whether an error escaped to the caller. -/
structure AlertEffects where
  posted : Bool
  cooldownWrites : List (String × Nat)
  errorPropagated : Bool
deriving DecidableEq

/-- `sendArbitrageAlert` from `alerts.ts`. The whole body runs inside a
`try` whose `catch` only logs, so no error propagates. The cooldown key is
read first (`isInCooldown`); `sendToDiscord` throws before issuing a POST
when no webhook URL is configured, and `markAlerted` (the only cooldown
write, TTL `cooldownMinutes · 60`) runs only after `sendToDiscord` returned
successfully. `postSucceeds` abstracts the webhook POST outcome. -/
def sendArbitrageAlert (cfg : AlertsConfig) (cooldownPresent : String → Bool)
    (postSucceeds : Bool) (opportunity : ArbitrageOpportunity) :
    AlertEffects :=
  if !cfg.enabled then
    ⟨false, [], false⟩
  else if cooldownPresent
      (alertSentKey opportunity.marketA.id opportunity.marketB.id) then
    ⟨false, [], false⟩
  else if !cfg.webhookConfigured then
    ⟨false, [], false⟩
  else if postSucceeds then
    ⟨true, [(alertSentKey opportunity.marketA.id opportunity.marketB.id,
       cfg.cooldownMinutes * 60)], false⟩
  else
    ⟨true, [], false⟩

/-- Apply the cooldown writes of a call to the cache state: a key is present
afterwards iff it was written or was already present (TTL expiry within the
window is out of scope). -/
def applyCooldownWrites (cooldownPresent : String → Bool)
    (writes : List (String × Nat)) : String → Bool :=
  fun key => writes.any (fun w => w.1 == key) || cooldownPresent key

/-- C8: `sendArbitrageAlert` issues no POST when alerts are disabled or the
cooldown key `alert:sent:<idA>:<idB>` is present; it writes that key, with
TTL `cooldownMinutes · 60`, only after a successful POST and never on a
failed one; no error ever propagates; and after a successful POST a repeat
call for the same pair within the window issues no further POST. -/
theorem sendArbitrageAlert_spec (cfg : AlertsConfig)
    (cooldownPresent : String → Bool) (postSucceeds : Bool)
    (opportunity : ArbitrageOpportunity) :
    (cfg.enabled = false →
      sendArbitrageAlert cfg cooldownPresent postSucceeds opportunity =
        ⟨false, [], false⟩) ∧
    (cooldownPresent
        (alertSentKey opportunity.marketA.id opportunity.marketB.id) = true →
      sendArbitrageAlert cfg cooldownPresent postSucceeds opportunity =
        ⟨false, [], false⟩) ∧
    ((sendArbitrageAlert cfg cooldownPresent postSucceeds
        opportunity).cooldownWrites ≠ [] →
      postSucceeds = true ∧
      (sendArbitrageAlert cfg cooldownPresent postSucceeds
        opportunity).posted = true ∧
      (sendArbitrageAlert cfg cooldownPresent postSucceeds
        opportunity).cooldownWrites =
        [(alertSentKey opportunity.marketA.id opportunity.marketB.id,
          cfg.cooldownMinutes * 60)]) ∧
    (postSucceeds = false →
      (sendArbitrageAlert cfg cooldownPresent postSucceeds
        opportunity).cooldownWrites = []) ∧
    (sendArbitrageAlert cfg cooldownPresent postSucceeds
      opportunity).errorPropagated = false ∧
    (postSucceeds = true →
      (sendArbitrageAlert cfg cooldownPresent postSucceeds
        opportunity).posted = true →
      ∀ postSucceeds2,
        (sendArbitrageAlert cfg
          (applyCooldownWrites cooldownPresent
            (sendArbitrageAlert cfg cooldownPresent postSucceeds
              opportunity).cooldownWrites)
          postSucceeds2 opportunity).posted = false) := by
  unfold sendArbitrageAlert applyCooldownWrites
  cases he : cfg.enabled <;>
    cases hcd : cooldownPresent
      (alertSentKey opportunity.marketA.id opportunity.marketB.id) <;>
    cases hw : cfg.webhookConfigured <;>
    cases hp : postSucceeds <;>
    simp_all

/-- An `ArbitrageOpportunity` with the spec scenario 1 numbers, used to
instantiate the alert-dispatcher theorem. -/
def oppDemoAlert : ArbitrageOpportunity :=
  { marketA := mDemoPM, marketB := mDemoMAN, outcomeA := "Yes"
    outcomeB := "No", priceA := 45/100, priceB := 38/100
    totalCost := 83/100, feesA := 9/1000, feesB := 0, totalFees := 9/1000
    netCost := 839/1000, profitMargin := 161/1000, roi := 16100/839
    isProfitable := true }

/-- Witness for `sendArbitrageAlert_spec`: with alerts enabled, a configured
webhook, an empty cooldown store and a successful POST, the first call posts
and writes the 600 s cooldown key, and the repeated call is suppressed. -/
theorem sendArbitrageAlert_spec_witness :
    (sendArbitrageAlert ⟨true, true, 10⟩ (fun _ => false) true
      oppDemoAlert).posted = true ∧
    (sendArbitrageAlert ⟨true, true, 10⟩ (fun _ => false) true
      oppDemoAlert).cooldownWrites = [("alert:sent:pm1:man1", 600)] ∧
    (sendArbitrageAlert ⟨true, true, 10⟩
      (applyCooldownWrites (fun _ => false)
        (sendArbitrageAlert ⟨true, true, 10⟩ (fun _ => false) true
          oppDemoAlert).cooldownWrites)
      true oppDemoAlert).posted = false := by
  have h := sendArbitrageAlert_spec ⟨true, true, 10⟩ (fun _ => false) true
    oppDemoAlert
  refine ⟨by with_unfolding_all decide, by with_unfolding_all decide, ?_⟩
  exact h.2.2.2.2.2 rfl (by with_unfolding_all decide) true

/-! ## Retry driver (`src/utils/helpers.ts`) -/

/-- The backoff delay before the attempt following attempt `i`:
`Math.min(initialDelay * Math.pow(2, i), maxDelay)`. -/
def backoffDelay (initialDelay maxDelay i : Nat) : Nat :=
  min (initialDelay * 2 ^ i) maxDelay

/-- The outcome of a `retryWithBackoff` run: the value or propagated error
(`Except`), the number of attempts made, and the sleeps performed between
attempts in order. `.error none` models the final
`throw new Error('Retry failed')`, reachable only with `maxRetries = 0`. -/
structure RetryOutcome (E A : Type) where
  result : Except (Option E) A
  attempts : Nat
  sleeps : List Nat

/-- The retry loop of `retryWithBackoff`, with the attempt outcomes given by
`fn : attempt index → result`. `remaining` counts the loop iterations left
(`maxRetries - i`); on the last iteration (`i === maxRetries - 1`) the error
is rethrown before `shouldRetry` is consulted. -/
def retryAux {E A : Type} (fn : Nat → Except E A) (shouldRetry : E → Bool)
    (initialDelay maxDelay : Nat) : Nat → Nat → RetryOutcome E A
  | 0, _ => ⟨.error none, 0, []⟩
  | r + 1, i =>
    match fn i with
    | .ok a => ⟨.ok a, 1, []⟩
    | .error e =>
      if r = 0 then
        ⟨.error (some e), 1, []⟩
      else if !shouldRetry e then
        ⟨.error (some e), 1, []⟩
      else
        let rest := retryAux fn shouldRetry initialDelay maxDelay r (i + 1)
        ⟨rest.result, rest.attempts + 1,
          backoffDelay initialDelay maxDelay i :: rest.sleeps⟩

/-- `retryWithBackoff` from `helpers.ts` (option defaults: `maxRetries = 3`,
`initialDelay = 1000`, `maxDelay = 10000`, `shouldRetry` constantly true). -/
def retryWithBackoff {E A : Type} (fn : Nat → Except E A)
    (maxRetries initialDelay maxDelay : Nat) (shouldRetry : E → Bool) :
    RetryOutcome E A :=
  retryAux fn shouldRetry initialDelay maxDelay maxRetries 0

theorem retryAux_succ_eq {E A : Type} (fn : Nat → Except E A)
    (sr : E → Bool) (init maxD r i : Nat) :
    retryAux fn sr init maxD (r + 1) i =
      match fn i with
      | .ok a => ⟨.ok a, 1, []⟩
      | .error e =>
        if r = 0 then ⟨.error (some e), 1, []⟩
        else if !sr e then ⟨.error (some e), 1, []⟩
        else
          let rest := retryAux fn sr init maxD r (i + 1)
          ⟨rest.result, rest.attempts + 1,
            backoffDelay init maxD i :: rest.sleeps⟩ := rfl

theorem retryAux_const_fail {E A : Type} (fn : Nat → Except E A)
    (sr : E → Bool) (init maxD : Nat) (err : Nat → E)
    (hfn : ∀ i, fn i = .error (err i)) (hsr : ∀ i, sr (err i) = true) :
    ∀ r i, 1 ≤ r →
      retryAux fn sr init maxD r i =
        ⟨.error (some (err (i + r - 1))), r,
          (List.range (r - 1)).map (fun j => backoffDelay init maxD (i + j))⟩ := by
  intro r
  induction r with
  | zero => intro i h; exact absurd h (by decide)
  | succ r ih =>
    intro i _
    rw [retryAux_succ_eq, hfn i]
    cases r with
    | zero => simp
    | succ r2 =>
      have hr2 : 1 ≤ r2 + 1 := Nat.succ_le_succ (Nat.zero_le _)
      simp only [Nat.succ_ne_zero, if_false, hsr i, Bool.not_true,
        Bool.false_eq_true, ih (i + 1) hr2]
      refine congrArg₂ (fun x y => RetryOutcome.mk x (r2 + 1 + 1) y) ?_ ?_
      · have harg : i + 1 + (r2 + 1) - 1 = i + (r2 + 1 + 1) - 1 := by omega
        rw [harg]
      · have hsucc : r2 + 1 + 1 - 1 = (r2 + 1 - 1) + 1 := by omega
        rw [hsucc, List.range_succ_eq_map, List.map_cons, List.map_map]
        refine congrArg₂ List.cons (by rw [Nat.add_zero]) ?_
        refine congrArg₂ List.map ?_ rfl
        funext j
        show backoffDelay init maxD (i + 1 + j) = backoffDelay init maxD (i + (j + 1))
        have : i + 1 + j = i + (j + 1) := by omega
        rw [this]

theorem retryAux_stop {E A : Type} (fn : Nat → Except E A) (sr : E → Bool)
    (init maxD : Nat) (err : Nat → E) :
    ∀ k r i, k + 1 ≤ r →
      (∀ j < k, fn (i + j) = .error (err (i + j)) ∧ sr (err (i + j)) = true) →
      fn (i + k) = .error (err (i + k)) →
      (sr (err (i + k)) = false ∨ k + 1 = r) →
      (retryAux fn sr init maxD r i).result = .error (some (err (i + k))) ∧
      (retryAux fn sr init maxD r i).attempts = k + 1 := by
  intro k
  induction k with
  | zero =>
    intro r i hr hall hk hlast
    obtain ⟨r2, rfl⟩ : ∃ r2, r = r2 + 1 := ⟨r - 1, by omega⟩
    rw [Nat.add_zero] at hk hlast ⊢
    rw [retryAux_succ_eq, hk]
    cases hr2 : r2 with
    | zero => simp
    | succ r3 =>
      have hsr0 : sr (err i) = false := by
        rcases hlast with h | h
        · exact h
        · omega
      simp [hsr0]
  | succ k ih =>
    intro r i hr hall hk hlast
    obtain ⟨r2, rfl⟩ : ∃ r2, r = r2 + 1 := ⟨r - 1, by omega⟩
    have h0 := hall 0 (by omega)
    rw [Nat.add_zero] at h0
    rw [retryAux_succ_eq, h0.1]
    have hr20 : r2 ≠ 0 := by omega
    have hih := ih r2 (i + 1) (by omega)
      (fun j hj => by
        have hj1 := hall (j + 1) (by omega)
        have harg : i + (j + 1) = i + 1 + j := by omega
        rw [harg] at hj1
        exact hj1)
      (by
        have harg : i + (k + 1) = i + 1 + k := by omega
        rw [harg] at hk
        exact hk)
      (by
        have harg : i + (k + 1) = i + 1 + k := by omega
        rw [harg] at hlast
        rcases hlast with h | h
        · exact Or.inl h
        · exact Or.inr (by omega))
    have harg : i + 1 + k = i + (k + 1) := by omega
    rw [harg] at hih
    simp only [hr20, if_false, h0.2, Bool.not_true, Bool.false_eq_true]
    exact ⟨hih.1, by rw [hih.2]⟩

/-- C9: with `maxRetries = N ≥ 1`, if every attempt throws a retryable
error, exactly `N` attempts are made, the sleep after attempt `i` is
`min(initialDelay · 2^i, maxDelay)` for `i = 0 .. N−2`, and the last
attempt's error propagates; and whenever attempt `k` throws an error that is
non-retryable, or is the last allowed attempt, that error propagates after
exactly `k + 1` attempts. -/
theorem retryWithBackoff_spec {E A : Type} (fn : Nat → Except E A)
    (sr : E → Bool) (init maxD N : Nat) (err : Nat → E) (hN : 1 ≤ N) :
    ((∀ i, fn i = .error (err i)) → (∀ i, sr (err i) = true) →
      retryWithBackoff fn N init maxD sr =
        ⟨.error (some (err (N - 1))), N,
          (List.range (N - 1)).map (backoffDelay init maxD)⟩) ∧
    (∀ k, k + 1 ≤ N →
      (∀ j < k, fn j = .error (err j) ∧ sr (err j) = true) →
      fn k = .error (err k) →
      (sr (err k) = false ∨ k + 1 = N) →
      (retryWithBackoff fn N init maxD sr).result = .error (some (err k)) ∧
      (retryWithBackoff fn N init maxD sr).attempts = k + 1) := by
  constructor
  · intro hfn hsr
    unfold retryWithBackoff
    rw [retryAux_const_fail fn sr init maxD err hfn hsr N 0 hN]
    refine congrArg₂ (fun x y => RetryOutcome.mk x N y) (by rw [Nat.zero_add]) ?_
    refine congrArg₂ List.map ?_ rfl
    funext j
    show backoffDelay init maxD (0 + j) = backoffDelay init maxD j
    rw [Nat.zero_add]
  · intro k hk hall hfk hlast
    unfold retryWithBackoff
    have h := retryAux_stop fn sr init maxD err k N 0 hk
      (fun j hj => by rw [Nat.zero_add]; exact hall j hj)
      (by rw [Nat.zero_add]; exact hfk)
      (by rw [Nat.zero_add]; exact hlast)
    rw [Nat.zero_add] at h
    exact h

/-- Witness for `retryWithBackoff_spec` under constant retryable failure
with the adapters' options (3 retries, 1000 ms initial delay, 10000 ms cap):
three attempts, sleeps 1000 ms and 2000 ms, last error propagated. -/
theorem retryWithBackoff_spec_witness :
    retryWithBackoff (fun _ => (.error 7 : Except Nat Unit)) 3 1000 10000
      (fun _ => true) =
      ⟨.error (some 7), 3, [1000, 2000]⟩ := by
  have h := (retryWithBackoff_spec (fun _ => (.error 7 : Except Nat Unit))
    (fun _ => true) 1000 10000 3 (fun _ => 7) (by decide)).1
    (fun _ => rfl) (fun _ => rfl)
  rw [h]
  refine congrArg₂ (fun x y => RetryOutcome.mk x 3 y) rfl ?_
  decide

/-! ## Error taxonomy (`src/utils/errors.ts`) -/

/-- The scanner error classes: `ScannerError` (base), `APIError`,
`RateLimitError` (an `APIError` with status 429 and an optional
`retryAfter`), and `ValidationError`. -/
inductive ScannerError where
  | base (message : String)
  | api (platform : String) (statusCode : Option Nat)
  | rateLimit (platform : String) (retryAfter : Option Nat)
  | validation (platform : String)
deriving DecidableEq

/-- `instanceof APIError` (a `RateLimitError` is an `APIError`). -/
def ScannerError.isAPIError : ScannerError → Bool
  | .api _ _ => true
  | .rateLimit _ _ => true
  | _ => false

/-- The `statusCode` field of an `APIError`; a `RateLimitError` carries 429. -/
def ScannerError.statusCode : ScannerError → Option Nat
  | .api _ s => s
  | .rateLimit _ _ => some 429
  | _ => none

/-- `APIError.isRetryable`: no status (network/timeout), 5xx, or 429. -/
def ScannerError.isRetryable : ScannerError → Bool
  | .api _ none => true
  | .api _ (some s) => decide (500 ≤ s) || decide (s = 429)
  | .rateLimit _ _ => true
  | _ => false

/-- A JavaScript value thrown inside an adapter call, as discriminated by
`classifyError`: an axios error (optional HTTP status from `response`,
optional `Retry-After` header, timeout flag), a Zod error (has `issues`),
any other `Error` instance (this includes a rethrown `ScannerError`, whose
class information `classifyError` does not inspect), or a non-`Error`. -/
inductive Thrown where
  | axiosErr (status : Option Nat) (retryAfter : Option Nat) (isTimeout : Bool)
  | zodErr
  | jsError (message : String)
  | other
deriving DecidableEq

/-- The HTTP status of the underlying request, when the thrown value is an
axios error carrying a response. -/
def Thrown.httpStatus : Thrown → Option Nat
  | .axiosErr s _ _ => s
  | _ => none

/-- `classifyError` from `errors.ts`: 429 → `RateLimitError`, any other
response status → `APIError` with that status, timeout/network →
`APIError` without a status, Zod `issues` → `ValidationError`, any other
`Error` → plain `ScannerError` with its message, else unknown. -/
def classifyError (error : Thrown) (platform : String) : ScannerError :=
  match error with
  | .axiosErr status retryAfter _ =>
    match status with
    | some s =>
      if s = 429 then .rateLimit platform retryAfter
      else .api platform (some s)
    | none => .api platform none
  | .zodErr => .validation platform
  | .jsError message => .base message
  | .other => .base "Unknown error occurred"

/-! ## Adapters (`src/adapters/polymarket.ts`, `src/adapters/manifold.ts`,
`src/adapters/kalshi.ts`) -/

/-- The outcome of the HTTP GET plus schema validation behind a
single-market fetch: the request threw, the response failed the Zod schema,
or a validated payload came back. -/
inductive FetchInput (α : Type) where
  | httpError (error : Thrown)
  | invalidPayload
  | payload (value : α)
deriving DecidableEq

/-- A schema-validated PolyMarket event (`PolyMarketEventSchema`), with the
`outcomes` / `outcomePrices` JSON strings already parsed into arrays and
decimal strings into exact rationals. `endDateIso` holds the parsed
`Date.getTime()` instant (`none` for an absent or empty string, which is
falsy). -/
structure PolyMarketEvent where
  id : String
  question : String
  endDateIso : Option Int
  groupItemTitle : Option String
  outcomes : List String
  outcomePrices : List ℚ
  liquidity : Option ℚ
deriving DecidableEq

/-- `PolyMarketAdapter.toStandardMarket`: one outcome entry per element of
the parsed `outcomes` array, priced by index into `outcomePrices` (the
`getD 0` default models payloads that provide a price for every outcome;
on a shorter price array the source would throw while building the
`Decimal`). No count, range, or emptiness validation is performed. -/
def polyToStandardMarket (market : PolyMarketEvent) : StandardMarket :=
  { id := market.id
    platform := .POLYMARKET
    title := market.question
    outcomes := market.outcomes.enum.map
      (fun p => ⟨p.2, market.outcomePrices.getD p.1 0⟩)
    url := "https://polymarket.com/event/" ++ market.id
    category :=
      match market.groupItemTitle with
      | some s => if s = "" then none else some s
      | none => none
    endDate := market.endDateIso
    liquidity := market.liquidity }

/-- `PolyMarketAdapter.fetchMarkets`, applied to a schema-validated
response payload: every event is transformed, none is filtered. -/
def polymarketFetchMarkets (markets : List PolyMarketEvent) :
    List StandardMarket :=
  markets.map polyToStandardMarket

/-- `PolyMarketAdapter.fetchMarketById`: the whole body sits in a `try`
whose `catch` classifies, logs, and returns `null` — for every kind of
failure, not only 404. -/
def polymarketFetchMarketById (input : FetchInput PolyMarketEvent) :
    Except ScannerError (Option StandardMarket) :=
  match input with
  | .payload market => .ok (some (polyToStandardMarket market))
  | .invalidPayload => .ok none
  | .httpError _ => .ok none

/-- A schema-validated Manifold market (`ManifoldMarketSchema`).
`closeTime` is the close instant in milliseconds. -/
structure ManifoldMarket where
  id : String
  question : String
  url : String
  closeTime : Option Int
  outcomeType : String
  probability : Option ℚ
  isResolved : Bool
  totalLiquidity : Option ℚ
deriving DecidableEq

/-- `ManifoldAdapter.isBinaryMarket`: binary outcome type, unresolved,
probability present. -/
def isBinaryMarket (market : ManifoldMarket) : Bool :=
  market.outcomeType == "BINARY" && !market.isResolved &&
    market.probability.isSome

/-- `ManifoldAdapter.toStandardMarket`: Yes price = probability, No price =
1 − probability. The `probability || 0.5` fallback makes a probability of
exactly 0 fall back to 0.5 (0 is falsy), as does an absent one; the
truthiness tests on `closeTime` and `totalLiquidity` likewise drop a 0. -/
def manifoldToStandardMarket (market : ManifoldMarket) : StandardMarket :=
  let probability : ℚ :=
    match market.probability with
    | some p => if p = 0 then 1/2 else p
    | none => 1/2
  { id := market.id
    platform := .MANIFOLD
    title := market.question
    outcomes := [⟨"Yes", probability⟩, ⟨"No", 1 - probability⟩]
    url := market.url
    category := none
    endDate :=
      match market.closeTime with
      | some t => if t = 0 then none else some t
      | none => none
    liquidity :=
      match market.totalLiquidity with
      | some l => if l = 0 then none else some l
      | none => none }

/-- `ManifoldAdapter.fetchMarkets`, applied to a schema-validated response
payload: keep binary markets, trim to `limit`, transform. -/
def manifoldFetchMarkets (markets : List ManifoldMarket) (limit : Nat) :
    List StandardMarket :=
  ((markets.filter isBinaryMarket).take limit).map manifoldToStandardMarket

/-- A schema-validated Kalshi market (`KalshiMarketSchema`); prices are in
integer cents (modelled exactly), `market_type` is `'binary'` or
`'scalar'`, and `close_time` holds the parsed close instant (`none` for an
empty string, which is falsy). -/
structure KalshiMarket where
  ticker : String
  title : String
  market_type : String
  close_time : Option Int
  yes_ask : Option ℚ
  no_ask : Option ℚ
  liquidity : Option ℚ
  category : Option String
deriving DecidableEq

/-- `KalshiAdapter.toStandardMarket`: cents to dollars on both ask sides
(the `yes_ask ? yes_ask / 100 : 0` truthiness makes an absent or zero ask
price 0), fixed YES/NO outcome names, liquidity divided by 100. -/
def kalshiToStandardMarket (market : KalshiMarket) : StandardMarket :=
  let yesPrice : ℚ :=
    match market.yes_ask with
    | some y => if y = 0 then 0 else y / 100
    | none => 0
  let noPrice : ℚ :=
    match market.no_ask with
    | some n => if n = 0 then 0 else n / 100
    | none => 0
  { id := market.ticker
    platform := .KALSHI
    title := market.title
    outcomes := [⟨"YES", yesPrice⟩, ⟨"NO", noPrice⟩]
    url := "https://kalshi.com/markets/" ++ market.ticker
    category :=
      match market.category with
      | some c => if c = "" then none else some c
      | none => none
    endDate := market.close_time
    liquidity :=
      match market.liquidity with
      | some l => if l = 0 then none else some (l / 100)
      | none => none }

/-- `KalshiAdapter.fetchMarkets`, applied to a schema-validated response
payload: keep binary markets whose `yes_ask` is defined (the `no_ask` side
is not checked), transform. -/
def kalshiFetchMarkets (markets : List KalshiMarket) : List StandardMarket :=
  (markets.filter
    (fun market => market.market_type == "binary" && market.yes_ask.isSome)).map
    kalshiToStandardMarket

/-- `KalshiAdapter.fetchMarketByTicker`: the `catch` classifies the thrown
value and returns `null` only for an `APIError` with status 404, rethrowing
every other classified error. A schema failure throws a `ValidationError`
that the catch re-classifies (`instanceof Error` → plain `ScannerError`,
message abbreviated here), which is not an `APIError` 404 and so
propagates. -/
def kalshiFetchMarketByTicker (input : FetchInput KalshiMarket) :
    Except ScannerError (Option StandardMarket) :=
  match input with
  | .payload market => .ok (some (kalshiToStandardMarket market))
  | .invalidPayload => .error (.base "Invalid market data")
  | .httpError e =>
    let classifiedError := classifyError e "Kalshi"
    if classifiedError.isAPIError &&
        decide (classifiedError.statusCode = some 404) then
      .ok none
    else
      .error classifiedError

/-- PolyMarket payload violating every part of the C3 invariant: one single
outcome, price 1.5, empty id and title. It passes `PolyMarketEventSchema`,
which validates only that the fields are strings. -/
def polyRawBad : PolyMarketEvent :=
  { id := "", question := "", endDateIso := none, groupItemTitle := none
    outcomes := ["A"], outcomePrices := [3/2], liquidity := none }

/-- Kalshi payload with `yes_ask = 150` cents: the adapter emits YES at
price 1.5, outside [0,1]. -/
def kalRawBad : KalshiMarket :=
  { ticker := "T1", title := "sample kalshi market", market_type := "binary"
    close_time := none, yes_ask := some 150, no_ask := some 40
    liquidity := none, category := none }

/-- Manifold payload with `probability = 2`: the adapter emits Yes at price
2 and No at price −1, both outside [0,1]. -/
def manRawBad : ManifoldMarket :=
  { id := "m1", question := "sample manifold market", url := "u"
    closeTime := none, outcomeType := "BINARY", probability := some 2
    isResolved := false, totalLiquidity := none }

/-- Counterexample to C3 as stated: concrete schema-valid payloads for
which the adapters emit a market with one outcome and empty id/title
(PolyMarket) and markets with prices outside [0,1] (Kalshi at 1.5,
Manifold at 2 and −1) — no adapter enforces the §3 invariants beyond the
outcome shape that Kalshi and Manifold build structurally. -/
theorem adapters_invariant_counterexample :
    ¬ (∀ m ∈ polymarketFetchMarkets [polyRawBad] ++
        kalshiFetchMarkets [kalRawBad] ++ manifoldFetchMarkets [manRawBad] 20,
        m.outcomes.length = 2 ∧ (∀ o ∈ m.outcomes, 0 ≤ o.price ∧ o.price ≤ 1) ∧
        m.id ≠ "" ∧ m.title ≠ "") := by
  with_unfolding_all decide

/-- C3 (amended): every `StandardMarket` returned by the Manifold and
Kalshi `fetchMarkets` has exactly two outcomes, and the PolyMarket adapter
emits exactly one outcome entry per element of the payload's outcomes
array; no adapter validates price bounds or non-empty id/title. -/
theorem adapters_two_outcomes_spec (manPayload : List ManifoldMarket)
    (limit : Nat) (kalPayload : List KalshiMarket)
    (polyEvent : PolyMarketEvent) :
    (∀ m ∈ manifoldFetchMarkets manPayload limit, m.outcomes.length = 2) ∧
    (∀ m ∈ kalshiFetchMarkets kalPayload, m.outcomes.length = 2) ∧
    (polyToStandardMarket polyEvent).outcomes.length =
      polyEvent.outcomes.length := by
  refine ⟨?_, ?_, ?_⟩
  · intro m hm
    unfold manifoldFetchMarkets at hm
    rw [List.mem_map] at hm
    obtain ⟨raw, _, rfl⟩ := hm
    rfl
  · intro m hm
    unfold kalshiFetchMarkets at hm
    rw [List.mem_map] at hm
    obtain ⟨raw, _, rfl⟩ := hm
    rfl
  · unfold polyToStandardMarket
    simp

/-- Witness for `adapters_two_outcomes_spec` on concrete payloads: both the
Manifold and the Kalshi adapter emit two-outcome markets for the sample
payloads. -/
theorem adapters_two_outcomes_spec_witness :
    (manifoldToStandardMarket manRawBad).outcomes.length = 2 ∧
    (kalshiToStandardMarket kalRawBad).outcomes.length = 2 ∧
    (polyToStandardMarket polyRawBad).outcomes.length = 1 := by
  have h := adapters_two_outcomes_spec [manRawBad] 20 [kalRawBad] polyRawBad
  refine ⟨?_, ?_, ?_⟩
  · exact h.1 (manifoldToStandardMarket manRawBad)
      (by with_unfolding_all decide)
  · exact h.2.1 (kalshiToStandardMarket kalRawBad)
      (by with_unfolding_all decide)
  · rw [h.2.2]
    rfl

/-- Counterexample to C10 as stated: on an HTTP 500 failure, PolyMarket's
`fetchMarketById` still returns `null` (its catch-all swallows every
classified error), whereas the claim requires `null` exactly on 404. -/
theorem polymarket_fetchById_counterexample :
    ¬ (polymarketFetchMarketById
        (.httpError (.axiosErr (some 500) none false)) = .ok none ↔
      (Thrown.axiosErr (some 500) none false).httpStatus = some 404) := by
  intro h
  have h404 := h.mp rfl
  simp [Thrown.httpStatus] at h404

/-- C10 (amended): Kalshi's `fetchMarketByTicker` returns `null` iff the
HTTP request failed with status 404 (429 classifies to a `RateLimitError`
with status 429, so it propagates, as do all other failures and schema
violations); PolyMarket's `fetchMarketById` instead returns `null` on every
failure, propagating nothing. -/
theorem singleMarketFetch_404_spec (e : Thrown) :
    (kalshiFetchMarketByTicker (.httpError e) = .ok none ↔
      e.httpStatus = some 404) ∧
    (∃ msg, kalshiFetchMarketByTicker
      (.invalidPayload : FetchInput KalshiMarket) = .error (.base msg)) ∧
    (∀ market : KalshiMarket, kalshiFetchMarketByTicker (.payload market) =
      .ok (some (kalshiToStandardMarket market))) ∧
    polymarketFetchMarketById (.httpError e) = .ok none ∧
    polymarketFetchMarketById
      (.invalidPayload : FetchInput PolyMarketEvent) = .ok none := by
  refine ⟨?_, ⟨"Invalid market data", rfl⟩, fun _ => rfl, rfl, rfl⟩
  cases e with
  | axiosErr s retryAfter isTimeout =>
    cases s with
    | none =>
      simp [kalshiFetchMarketByTicker, classifyError, Thrown.httpStatus,
        ScannerError.isAPIError, ScannerError.statusCode]
    | some n =>
      by_cases h429 : n = 429
      · subst h429
        simp [kalshiFetchMarketByTicker, classifyError, Thrown.httpStatus,
          ScannerError.isAPIError, ScannerError.statusCode]
      · by_cases h404 : n = 404
        · subst h404
          simp [kalshiFetchMarketByTicker, classifyError, Thrown.httpStatus,
            ScannerError.isAPIError, ScannerError.statusCode, h429]
        · simp [kalshiFetchMarketByTicker, classifyError, Thrown.httpStatus,
            ScannerError.isAPIError, ScannerError.statusCode, h429, h404]
  | zodErr =>
    simp [kalshiFetchMarketByTicker, classifyError, Thrown.httpStatus,
      ScannerError.isAPIError, ScannerError.statusCode]
  | jsError message =>
    simp [kalshiFetchMarketByTicker, classifyError, Thrown.httpStatus,
      ScannerError.isAPIError, ScannerError.statusCode]
  | other =>
    simp [kalshiFetchMarketByTicker, classifyError, Thrown.httpStatus,
      ScannerError.isAPIError, ScannerError.statusCode]

/-- Witness for `singleMarketFetch_404_spec` at a concrete 404 failure and
a concrete 500 failure: Kalshi maps 404 to `null` and propagates the 500;
PolyMarket returns `null` for both. -/
theorem singleMarketFetch_404_spec_witness :
    kalshiFetchMarketByTicker
      (.httpError (.axiosErr (some 404) none false)) = .ok none ∧
    kalshiFetchMarketByTicker
      (.httpError (.axiosErr (some 500) none false)) ≠ .ok none ∧
    polymarketFetchMarketById
      (.httpError (.axiosErr (some 500) none false)) = .ok none := by
  refine ⟨?_, ?_, ?_⟩
  · exact (singleMarketFetch_404_spec (.axiosErr (some 404) none false)).1.mpr
      rfl
  · intro hcontra
    have h500 := (singleMarketFetch_404_spec
      (.axiosErr (some 500) none false)).1.mp hcontra
    simp [Thrown.httpStatus] at h500
  · exact (singleMarketFetch_404_spec (.axiosErr (some 500) none false)).2.2.2.1

end ArbScanner
